import Mathlib

/-!
# Shallow embedding of the `strfmt` format registry (format.go, currency file)

This file models the format registry of the repository: the name normalizer,
the mutable store of known formats (`defaultFormats`), its public operations
(`Add`, `DelByName`, `GetType`, `ContainsName`, `Validates`, `Parse`), the
mapstructure decode-hook adapter (`MapStructureHookFunc`), the generator
metadata view (`Normalized`, `Formats`, ..., `ZeroExpressions`), and the
`Currency` format registered by the currency file's `init`.

Go slices are modelled as Lean lists; `reflect.Type` identities become the
inductive `GoType`; `interface{}` source values of the decode hook become the
inductive `GoValue`; Go errors become the inductive `GoErr`.  Calls into
external libraries (`time.ParseInLocation`, `ParseDateTime`, `ParseDuration`,
`ParseULID`, and the text-unmarshalers of types whose code is outside this
repository's sources) are kept abstract as fields of an `Externals` record
that the operations are parametrised by.
-/

namespace Strfmt

/-- Identity of a concrete Go type implementing the `Format` interface
(`reflect.Type` after dereferencing pointers, as computed in `Add`).
`custom s` stands for any other concrete type, identified by its name. -/
inductive GoType where
  | date | datetime | duration | uri | email | uuid | uuid3 | uuid4 | uuid5
  | hostname | ipv4 | ipv6 | cidr | mac | isbn | isbn10 | isbn13
  | creditcard | ssn | hexcolor | rgbcolor | base64 | password | ulid
  | currency | objectId
  | custom (name : String)
  deriving DecidableEq, Repr

/-- A runtime Go value as seen by the decode hook (`obj interface{}`) and as
produced by `Parse`: either a plain Go `string`, a string-backed format value
of some `GoType` carrying its textual content, or a non-string scalar. -/
inductive GoValue where
  | str (s : String)
  | fmt (t : GoType) (payload : String)
  | intV (n : Int)
  | boolV (b : Bool)
  | nilV
  deriving DecidableEq, Repr

/-- Errors produced by the registry operations and the decode hook. -/
inductive GoErr where
  /-- Model of `errors.InvalidTypeName(name)` -/
  | invalidTypeName (name : String)
  /-- Model of `fmt.Errorf("failed to cast %+v to string: %w", obj, ErrFormat)` -/
  | castFailure
  /-- Model of `fmt.Errorf("empty string is an invalid datetime format: %w", ErrFormat)` -/
  | emptyDateTime
  /-- any error surfaced verbatim from an external parser or unmarshaler -/
  | decodeErr (msg : String)
  deriving DecidableEq, Repr

/-- Model of `knownFormat` (format.go): one registered format entry. -/
structure knownFormat where
  Name : String
  OrigName : String
  Typ : GoType
  Validator : String → Bool

/-- Model of `DefaultNameNormalizer` (format.go): `strings.ReplaceAll(name, "-", "")`,
i.e. every dash is removed and all other characters (including case) are kept. -/
def DefaultNameNormalizer (name : String) : String :=
  String.mk (name.toList.filter (fun c => c != '-'))

/-- Model of `defaultFormats` (format.go): the store's logical content — the ordered
entry list and the normalizer it was constructed with.  (The `sync.Mutex`
field is modelled separately; see `methodLockEvents`.) -/
structure defaultFormats where
  data : List knownFormat
  normalizeName : String → String

/-- Model of `NewSeededFormats` (format.go): seeds a fresh store with a copy of the
given entries; a `nil` normalizer defaults to `DefaultNameNormalizer`.
(The copy `append([]knownFormat(nil), seeds...)` is modelled explicitly in
the heap model below; at the level of logical content it is the identity.) -/
def NewSeededFormats (seeds : List knownFormat) (normalizer : Option (String → String)) :
    defaultFormats :=
  { data := seeds
    normalizeName := normalizer.getD DefaultNameNormalizer }

/-- Body of the loop of `Add` (format.go): scan for an entry with the
normalized name; overwrite its `Type`/`Validator` in place returning `false`,
or append a fresh entry returning `true`. -/
def addEntry (nme orig : String) (tpe : GoType) (validator : String → Bool) :
    List knownFormat → List knownFormat × Bool
  | [] => ([{ Name := nme, OrigName := orig, Typ := tpe, Validator := validator }], true)
  | v :: rest =>
    if v.Name == nme then
      ({ v with Typ := tpe, Validator := validator } :: rest, false)
    else
      let r := addEntry nme orig tpe validator rest
      (v :: r.1, r.2)

/-- Model of `Add` (format.go): upsert under the normalized name.  The Go method takes
a `Format` instance and derives `reflect.TypeOf` (dereferencing pointers);
the model receives that type identity directly. -/
def defaultFormats.Add (f : defaultFormats) (name : String) (tpe : GoType)
    (validator : String → Bool) : defaultFormats × Bool :=
  let nme := f.normalizeName name
  let r := addEntry nme name tpe validator f.data
  ({ f with data := r.1 }, r.2)

/-- Model of `GetType` (format.go): first entry with the normalized name, if any. -/
def defaultFormats.GetType (f : defaultFormats) (name : String) : Option GoType :=
  let nme := f.normalizeName name
  (f.data.find? (fun v => v.Name == nme)).map knownFormat.Typ

/-- Body of the loop of `DelByName` (format.go): remove the first entry with
the given normalized name. -/
def delEntry (nme : String) : List knownFormat → List knownFormat × Bool
  | [] => ([], false)
  | v :: rest =>
    if v.Name == nme then (rest, true)
    else
      let r := delEntry nme rest
      (v :: r.1, r.2)

/-- Model of `DelByName` (format.go). -/
def defaultFormats.DelByName (f : defaultFormats) (name : String) : defaultFormats × Bool :=
  let nme := f.normalizeName name
  let r := delEntry nme f.data
  ({ f with data := r.1 }, r.2)

/-- Model of `ContainsName` (format.go). -/
def defaultFormats.ContainsName (f : defaultFormats) (name : String) : Bool :=
  let nme := f.normalizeName name
  f.data.any (fun v => v.Name == nme)

/-- Model of `Validates` (format.go): apply the validator of the first entry with the
normalized name; `false` when the name is unknown. -/
def defaultFormats.Validates (f : defaultFormats) (name data : String) : Bool :=
  let nme := f.normalizeName name
  match f.data.find? (fun v => v.Name == nme) with
  | some v => v.Validator data
  | none => false

/-- The external functions the registry depends on whose implementations live
outside the sources modelled here: the per-type `UnmarshalText` capability
used by `Parse` (`none` models a type that does not implement
`encoding.TextUnmarshaler`), and the parsers called by the decode hook
(`time.ParseInLocation`+`Date`, `ParseDateTime`, `ParseDuration`,
`ParseULID`), each already combined with the hook's wrapping of the result. -/
structure Externals where
  unmarshalText : GoType → Option (String → Except GoErr GoValue)
  parseFullDate : String → Except GoErr GoValue
  parseDateTime : String → Except GoErr GoValue
  parseDuration : String → Except GoErr GoValue
  parseULID : String → Except GoErr GoValue

/-- Model of `Parse` (format.go): resolve the entry by normalized name, build a zero
value of the registered type and run its `UnmarshalText` on the data; error
`InvalidTypeName name` when the name is unknown or the type lacks the
text-unmarshal capability. -/
def defaultFormats.Parse (ext : Externals) (f : defaultFormats) (name data : String) :
    Except GoErr GoValue :=
  let nme := f.normalizeName name
  match f.data.find? (fun v => v.Name == nme) with
  | some v =>
    match ext.unmarshalText v.Typ with
    | some dec => dec data
    | none => Except.error (GoErr.invalidTypeName name)
  | none => Except.error (GoErr.invalidTypeName name)

/-- Model of `reflect.Kind` of the hook's `from` type; only the distinction
string / not-string is inspected by the hook, other kinds are listed for
fidelity of the "not a string" case. -/
inductive ReflKind where
  | string | int | bool | float | map | struct | slice | ptr | other
  deriving DecidableEq, Repr

/-- The `switch v.Name` of `MapStructureHookFunc` (format.go): per-format
parse routine selected by the entry's normalized name; names outside the
hard-coded list fall to `default`, which returns `errors.InvalidTypeName`. -/
def hookSwitch (ext : Externals) (name data : String) : Except GoErr GoValue :=
  match name with
  | "date" => ext.parseFullDate data
  | "datetime" =>
    if data.length == 0 then Except.error GoErr.emptyDateTime
    else ext.parseDateTime data
  | "duration" => ext.parseDuration data
  | "uri" => Except.ok (GoValue.fmt GoType.uri data)
  | "email" => Except.ok (GoValue.fmt GoType.email data)
  | "uuid" => Except.ok (GoValue.fmt GoType.uuid data)
  | "uuid3" => Except.ok (GoValue.fmt GoType.uuid3 data)
  | "uuid4" => Except.ok (GoValue.fmt GoType.uuid4 data)
  | "uuid5" => Except.ok (GoValue.fmt GoType.uuid5 data)
  | "hostname" => Except.ok (GoValue.fmt GoType.hostname data)
  | "ipv4" => Except.ok (GoValue.fmt GoType.ipv4 data)
  | "ipv6" => Except.ok (GoValue.fmt GoType.ipv6 data)
  | "cidr" => Except.ok (GoValue.fmt GoType.cidr data)
  | "mac" => Except.ok (GoValue.fmt GoType.mac data)
  | "isbn" => Except.ok (GoValue.fmt GoType.isbn data)
  | "isbn10" => Except.ok (GoValue.fmt GoType.isbn10 data)
  | "isbn13" => Except.ok (GoValue.fmt GoType.isbn13 data)
  | "creditcard" => Except.ok (GoValue.fmt GoType.creditcard data)
  | "ssn" => Except.ok (GoValue.fmt GoType.ssn data)
  | "hexcolor" => Except.ok (GoValue.fmt GoType.hexcolor data)
  | "rgbcolor" => Except.ok (GoValue.fmt GoType.rgbcolor data)
  | "byte" => Except.ok (GoValue.fmt GoType.base64 data)
  | "password" => Except.ok (GoValue.fmt GoType.password data)
  | "ulid" => ext.parseULID data
  | _ => Except.error (GoErr.invalidTypeName name)

/-- The built-in format names the hook's `switch` dispatches on (every
non-`default` case label, in source order). -/
def builtinHookNames : List String :=
  ["date", "datetime", "duration", "uri", "email", "uuid", "uuid3", "uuid4",
   "uuid5", "hostname", "ipv4", "ipv6", "cidr", "mac", "isbn", "isbn10",
   "isbn13", "creditcard", "ssn", "hexcolor", "rgbcolor", "byte", "password",
   "ulid"]

/-- The `for _, v := range f.data` loop of `MapStructureHookFunc` (format.go):
for each entry, look its name up again via `GetType` and compare with the
target type; on the first match dispatch on the entry's name; if no entry
matches, return the original string unchanged. -/
def hookLoop (ext : Externals) (f : defaultFormats) (toTpe : GoType) (data : String) :
    List knownFormat → Except GoErr GoValue
  | [] => Except.ok (GoValue.str data)
  | v :: rest =>
    if f.GetType v.Name == some toTpe then hookSwitch ext v.Name data
    else hookLoop ext f toTpe data rest

/-- Model of `MapStructureHookFunc` (format.go): the closure handed to mapstructure.
Non-string sources pass through unchanged; a string-kinded source that is not
a Go `string` fails the cast; otherwise the store is scanned for an entry
whose type matches the target type. -/
def defaultFormats.MapStructureHookFunc (ext : Externals) (f : defaultFormats)
    (fromKind : ReflKind) (toTpe : GoType) (obj : GoValue) : Except GoErr GoValue :=
  if fromKind != ReflKind.string then Except.ok obj
  else
    match obj with
    | GoValue.str data => hookLoop ext f toTpe data f.data
    | _ => Except.error GoErr.castFailure

/-- Model of `Normalized` (format.go): the normalized name when registered, else `""`. -/
def defaultFormats.Normalized (f : defaultFormats) (name : String) : String :=
  let nme := f.normalizeName name
  if f.data.any (fun v => nme == v.Name) then nme else ""

/-- Model of `Formats` (format.go): all normalized names, in store order. -/
def defaultFormats.Formats (f : defaultFormats) : List String :=
  f.data.map knownFormat.Name

/-- The name of a `GoType` as returned by `reflect.Type.Name()` (the concrete
Go type names of the built-in formats, `format_test.go` lists them). -/
def GoType.name : GoType → String
  | GoType.date => "Date"
  | GoType.datetime => "DateTime"
  | GoType.duration => "Duration"
  | GoType.uri => "URI"
  | GoType.email => "Email"
  | GoType.uuid => "UUID"
  | GoType.uuid3 => "UUID3"
  | GoType.uuid4 => "UUID4"
  | GoType.uuid5 => "UUID5"
  | GoType.hostname => "Hostname"
  | GoType.ipv4 => "IPv4"
  | GoType.ipv6 => "IPv6"
  | GoType.cidr => "CIDR"
  | GoType.mac => "MAC"
  | GoType.isbn => "ISBN"
  | GoType.isbn10 => "ISBN10"
  | GoType.isbn13 => "ISBN13"
  | GoType.creditcard => "CreditCard"
  | GoType.ssn => "SSN"
  | GoType.hexcolor => "HexColor"
  | GoType.rgbcolor => "RGBColor"
  | GoType.base64 => "Base64"
  | GoType.password => "Password"
  | GoType.ulid => "ULID"
  | GoType.currency => "Currency"
  | GoType.objectId => "ObjectId"
  | GoType.custom n => n

/-- Model of `Types` (format.go): all underlying type names, in store order. -/
def defaultFormats.Types (f : defaultFormats) : List String :=
  f.data.map (fun v => v.Typ.name)

/-- Model of `FormatToTypes` (format.go): association of normalized name to type name
(a Go map; modelled as the entry list it is built from, later insertions for
the same key overriding earlier ones on lookup-from-the-right). -/
def defaultFormats.FormatToTypes (f : defaultFormats) : List (String × String) :=
  f.data.map (fun v => (v.Name, v.Typ.name))

/-- Model of `TypeToFormats` (format.go): type name to the list of format names. -/
def defaultFormats.TypeToFormats (f : defaultFormats) (tpeName : String) : List String :=
  (f.data.filter (fun v => v.Typ.name == tpeName)).map knownFormat.Name

/-- The static table returned by `ZeroExpressions` (format.go): a hand-written
map literal; the store's `data` is not consulted. -/
def zeroExpressionsTable : List (String × String) :=
  [("CreditCard", "CreditCard(\"\")"),
   ("Email", "Email(\"\")"),
   ("HexColor", "HexColor(\"#000000\")"),
   ("Hostname", "Hostname(\"\")"),
   ("IPv4", "IPv4(\"\")"),
   ("IPv6", "IPv6(\"\")"),
   ("ISBN", "ISBN(\"\")"),
   ("ISBN10", "ISBN10(\"\")"),
   ("ISBN13", "ISBN13(\"\")"),
   ("MAC", "MAC(\"\")"),
   ("ObjectId", "ObjectId(\"\")"),
   ("Password", "Password(\"\")"),
   ("RGBColor", "RGBColor(\"rgb(0,0,0)\")"),
   ("SSN", "SSN(\"\")"),
   ("URI", "URI(\"\")"),
   ("UUID", "UUID(\"\")"),
   ("UUID3", "UUID3(\"\")"),
   ("UUID4", "UUID4(\"\")"),
   ("UUID5", "UUID5(\"\")"),
   ("Base64", "Base64([]byte(nil))"),
   ("Date", "Date\x7b\x7d"),
   ("DateTime", "DateTime\x7b\x7d"),
   ("Duration", "Duration(0)")]

/-- Model of `ZeroExpressions` (format.go): returns the static table, ignoring the
receiver's live contents (the `make(map...)` result is immediately discarded
in favour of the literal). -/
def defaultFormats.ZeroExpressions (_f : defaultFormats) : List (String × String) :=
  zeroExpressionsTable

/-- Model of `SchemaInfo` (format.go): unimplemented, always two empty strings. -/
def defaultFormats.SchemaInfo (_f : defaultFormats) (_v : GoValue) : String × String :=
  ("", "")

/-! ## The currency format (the currency source file) -/

/-- Model of `isoCurrencies` (currency file): the authorized ISO currency codes. -/
def isoCurrencies : List (String × Bool) :=
  [("AFA", true), ("EUR", true), ("USD", true), ("GBP", true),
   ("CHF", true), ("SGD", true), ("CAD", true)]

/-- Model of `currencyMatcher` (currency file): the regular expression
`^[A-Za-z]{3}$`, i.e. exactly three ASCII letters. -/
def currencyMatcher (s : String) : Bool :=
  s.length == 3 && s.toList.all Char.isAlpha

/-- Model of `IsCurrency` (currency file): three ASCII letters whose upper-cased form
is an authorized entry of `isoCurrencies`. -/
def IsCurrency (str : String) : Bool :=
  if currencyMatcher str then
    match (isoCurrencies.find? (fun p => p.1 == str.toUpper)).map Prod.snd with
    | some auth => auth
    | none => false
  else false

/-- Model of `Currency.UnmarshalText` (currency file): unconditionally assigns the
input bytes; validation is performed later on, so this never fails. -/
def Currency.UnmarshalText (data : String) : Except GoErr GoValue :=
  Except.ok (GoValue.fmt GoType.currency data)

/-- The `init` of the currency file: `Default.Add("currency", &d, IsCurrency)`
applied to a store. -/
def registerCurrency (f : defaultFormats) : defaultFormats :=
  (f.Add "currency" GoType.currency IsCurrency).1

/-! ## Mutex usage of the public methods

`defaultFormats` embeds a `sync.Mutex`; each method either brackets its whole
body in `f.Lock(); defer f.Unlock()` or never touches the mutex.  The events
below are read off each method body in format.go. -/

/-- The public methods of `defaultFormats` (format.go). -/
inductive Method where
  | Add | GetType | DelByName | DelByFormat | ContainsName | ContainsFormat
  | Validates | Parse | MapStructureHookFuncAccessor
  | Normalized | Formats | Types | FormatToTypes | TypeToFormats
  | ZeroExpressions | SchemaInfo
  deriving DecidableEq, Repr

/-- A mutex event: acquisition (`f.Lock()`) or release (`f.Unlock()`). -/
inductive LockEv where
  | acq | rel
  deriving DecidableEq, Repr

/-- The sequence of mutex events each public method performs on the store's
mutex during one call, transcribed from the method bodies in format.go:
`Add`..`Parse` open with `f.Lock()` and `defer f.Unlock()`; the accessor
`MapStructureHookFunc` itself and the generator-view methods `Normalized`,
`Formats`, `Types`, `FormatToTypes`, `TypeToFormats`, `ZeroExpressions` and
`SchemaInfo` contain no locking at all. -/
def methodLockEvents : Method → List LockEv
  | Method.Add => [LockEv.acq, LockEv.rel]
  | Method.GetType => [LockEv.acq, LockEv.rel]
  | Method.DelByName => [LockEv.acq, LockEv.rel]
  | Method.DelByFormat => [LockEv.acq, LockEv.rel]
  | Method.ContainsName => [LockEv.acq, LockEv.rel]
  | Method.ContainsFormat => [LockEv.acq, LockEv.rel]
  | Method.Validates => [LockEv.acq, LockEv.rel]
  | Method.Parse => [LockEv.acq, LockEv.rel]
  | Method.MapStructureHookFuncAccessor => []
  | Method.Normalized => []
  | Method.Formats => []
  | Method.Types => []
  | Method.FormatToTypes => []
  | Method.TypeToFormats => []
  | Method.ZeroExpressions => []
  | Method.SchemaInfo => []

/-- A method holds the store's lock for its full duration exactly when its
event sequence is a single acquire followed by a single release. -/
def locksFullDuration (m : Method) : Bool :=
  methodLockEvents m == [LockEv.acq, LockEv.rel]

/-! ## Heap model of slice sharing for seeding

`defaultFormats.data` is a Go slice: a reference to a backing array.
`NewSeededFormats` copies its seeds into a fresh backing array
(`append([]knownFormat(nil), seeds...)`), so two stores never share one.
To state that, buffers live in an explicit heap and stores hold buffer ids. -/

/-- The heap: backing arrays addressed by their index. -/
structure Heap where
  bufs : List (List knownFormat)

/-- A store as it sits in memory: a buffer id plus its normalizer. -/
structure StoreRef where
  buf : Nat
  normalizeName : String → String

/-- Read a buffer (out-of-range reads give the empty array; valid refs are
always in range). -/
def bufGet : List (List knownFormat) → Nat → List knownFormat
  | [], _ => []
  | b :: _, 0 => b
  | _ :: bs, n + 1 => bufGet bs n

/-- Overwrite a buffer in place. -/
def bufSet : List (List knownFormat) → Nat → List knownFormat → List (List knownFormat)
  | [], _, _ => []
  | _ :: bs, 0, c => c :: bs
  | b :: bs, n + 1, c => b :: bufSet bs n c

/-- The store a reference denotes in a heap. -/
def Heap.storeView (h : Heap) (r : StoreRef) : defaultFormats :=
  { data := bufGet h.bufs r.buf
    normalizeName := r.normalizeName }

/-- Model of `NewSeededFormats` in the heap model: allocate a FRESH buffer holding a
copy of the seeds (this is the `append([]knownFormat(nil), seeds...)` of
format.go) and return a reference to it. -/
def heapNewSeededFormats (h : Heap) (seeds : List knownFormat)
    (normalizer : Option (String → String)) : Heap × StoreRef :=
  ({ bufs := h.bufs ++ [seeds] },
   { buf := h.bufs.length
     normalizeName := normalizer.getD DefaultNameNormalizer })

/-- Model of `NewFormats` in the heap model: read the default store's entries and seed
a fresh registry from them (format.go). -/
def heapNewFormats (h : Heap) (defaultRef : StoreRef) : Heap × StoreRef :=
  heapNewSeededFormats h (bufGet h.bufs defaultRef.buf) none

/-- Model of `Add` in the heap model: rewrite the store's own buffer. -/
def heapAdd (h : Heap) (r : StoreRef) (name : String) (tpe : GoType)
    (validator : String → Bool) : Heap × Bool :=
  let l := bufGet h.bufs r.buf
  let res := addEntry (r.normalizeName name) name tpe validator l
  ({ bufs := bufSet h.bufs r.buf res.1 }, res.2)

/-- Model of `DelByName` in the heap model: rewrite the store's own buffer. -/
def heapDelByName (h : Heap) (r : StoreRef) (name : String) : Heap × Bool :=
  let l := bufGet h.bufs r.buf
  let res := delEntry (r.normalizeName name) l
  ({ bufs := bufSet h.bufs r.buf res.1 }, res.2)

/-! ## Derived notions used by the statements -/

/-- Whether some entry of `l` carries the normalized key `nme`
(the loop condition shared by `ContainsName`, `Add`, `DelByName`). -/
def containsKey (nme : String) (l : List knownFormat) : Bool :=
  l.any (fun v => v.Name == nme)

/-- Number of entries of `l` carrying the normalized key `nme`. -/
def countKey (nme : String) (l : List knownFormat) : Nat :=
  (l.filter (fun v => v.Name == nme)).length

/-- The store invariant: at most one live entry per normalized key. -/
def uniqueKeys : List knownFormat → Bool
  | [] => true
  | v :: rest => !containsKey v.Name rest && uniqueKeys rest

/-- A mutation of the registry: `Add` or `DelByName`. -/
inductive RegOp where
  | add (name : String) (tpe : GoType) (validator : String → Bool)
  | del (name : String)

/-- Apply one mutation to a store, keeping the resulting store. -/
def applyOp (f : defaultFormats) : RegOp → defaultFormats
  | RegOp.add n t v => (f.Add n t v).1
  | RegOp.del n => (f.DelByName n).1

/-- Apply a sequence of mutations to a store. -/
def applyOps (f : defaultFormats) (ops : List RegOp) : defaultFormats :=
  ops.foldl applyOp f

/-- An empty registry with the default normalizer. -/
def emptyFormats : defaultFormats := NewSeededFormats [] none

/-- A registry holding exactly the currency registration performed by the
currency file's `init`. -/
def currencyFormats : defaultFormats := registerCurrency emptyFormats

/-- A concrete instantiation of the external parsers, used to evaluate the
model on concrete inputs (the claims settled below never depend on the
behaviour of these externals beyond what their hypotheses state). -/
def stubExternals : Externals :=
  { unmarshalText := fun t => some (fun s => Except.ok (GoValue.fmt t s))
    parseFullDate := fun s => Except.ok (GoValue.fmt GoType.date s)
    parseDateTime := fun s => Except.ok (GoValue.fmt GoType.datetime s)
    parseDuration := fun s => Except.ok (GoValue.fmt GoType.duration s)
    parseULID := fun s => Except.ok (GoValue.fmt GoType.ulid s) }

/-! ## Helper lemmas -/

/-- A key absent from the scan is absent from `find?`. -/
theorem find?_eq_none_of_not_contains (nme : String) :
    ∀ l : List knownFormat, containsKey nme l = false →
      l.find? (fun v => v.Name == nme) = none
  | [], _ => rfl
  | v :: rest, h => by
    simp only [containsKey, List.any_cons, Bool.or_eq_false_iff] at h
    simp only [List.find?_cons, h.1]
    exact find?_eq_none_of_not_contains nme rest h.2

/-! ## C1 -/

/-- C1 (counterexample): the claim says the default normalizer identifies
case variants, in particular that `"date-time"` and `"dateTime"` normalize
to the identical key; in the code `DefaultNameNormalizer` only removes
dashes and keeps letter case, so the two keys differ
(`"datetime"` vs `"dateTime"`). -/
theorem C1_counterexample :
    DefaultNameNormalizer "date-time" ≠ DefaultNameNormalizer "dateTime" := by
  decide

/-- C1 (amended): the default `NameNormalizer` maps any two separator
variants of the same logical name to the same canonical key — it strips the
dash separators but preserves letter case — so normalizing `"date-time"` and
`"datetime"` yield the identical key, while `"dateTime"` yields a different
key. -/
theorem C1_default_normalizer_strips_dashes_only :
    (∀ s t : String,
        s.toList.filter (fun c => c != '-') = t.toList.filter (fun c => c != '-') →
        DefaultNameNormalizer s = DefaultNameNormalizer t) ∧
    DefaultNameNormalizer "date-time" = DefaultNameNormalizer "datetime" ∧
    DefaultNameNormalizer "dateTime" ≠ DefaultNameNormalizer "datetime" := by
  refine ⟨fun s t h => ?_, by decide, by decide⟩
  simpa [DefaultNameNormalizer] using congrArg String.mk h

/-- Witness for `C1_default_normalizer_strips_dashes_only` at concrete
variants of the same logical name. -/
theorem C1_default_normalizer_strips_dashes_only_witness :
    DefaultNameNormalizer "date-time" = DefaultNameNormalizer "date---time" :=
  C1_default_normalizer_strips_dashes_only.1 "date-time" "date---time" (by decide)

/-! ## C6 -/

/-- C6: for every source value whose dynamic type is not a string, the decode
hook returns the value unchanged with no error, regardless of the target type
and of the store's contents. -/
theorem C6_hook_ignores_non_strings (ext : Externals) (f : defaultFormats)
    (k : ReflKind) (toTpe : GoType) (obj : GoValue) (hk : k ≠ ReflKind.string) :
    f.MapStructureHookFunc ext k toTpe obj = Except.ok obj := by
  unfold defaultFormats.MapStructureHookFunc
  rw [if_pos]
  simpa using hk

/-- Witness for `C6_hook_ignores_non_strings`: an integer source value passes
through the hook of the currency store unchanged. -/
theorem C6_hook_ignores_non_strings_witness :
    currencyFormats.MapStructureHookFunc stubExternals ReflKind.int GoType.currency
      (GoValue.intV 42) = Except.ok (GoValue.intV 42) :=
  C6_hook_ignores_non_strings stubExternals currencyFormats ReflKind.int GoType.currency
    (GoValue.intV 42) (by decide)

/-! ## C8 -/

/-- C8: `ZeroExpressions` returns a fixed static table that does not depend
on the store's live contents: after any sequence of `Add`/`DelByName`
operations (including the currency registration) it returns the same mapping,
and the custom-registered `Currency` type is silently absent from it. -/
theorem C8_zero_expressions_static (f : defaultFormats) (ops : List RegOp) :
    (applyOps f ops).ZeroExpressions = f.ZeroExpressions ∧
    (applyOps f ops).ZeroExpressions = zeroExpressionsTable ∧
    zeroExpressionsTable.find? (fun p => p.1 == GoType.currency.name) = none :=
  ⟨rfl, rfl, by decide⟩

/-! ## C9 -/

/-- C9 (counterexample): the claim says every public operation, including the
generator metadata view query `Formats`, acquires the store's mutex for its
full duration; in the code `Formats` performs no locking at all. -/
theorem C9_counterexample :
    locksFullDuration Method.Formats = false ∧
    methodLockEvents Method.Formats = [] := by
  decide

/-- C9 (amended): the `Registry` operations (`Add`, `GetType`, `DelByName`,
`DelByFormat`, `ContainsName`, `ContainsFormat`, `Validates`, `Parse`) each
acquire the store's single mutex for their full duration, but the
`MapStructureHookFunc` accessor and the generator metadata view queries
(`Normalized`, `Formats`, `Types`, `FormatToTypes`, `TypeToFormats`,
`ZeroExpressions`, `SchemaInfo`) perform no locking, so the mutual-exclusion
discipline (and with it the claimed strict serializability) does not extend
to them. -/
theorem C9_lock_discipline :
    locksFullDuration Method.Add = true ∧
    locksFullDuration Method.GetType = true ∧
    locksFullDuration Method.DelByName = true ∧
    locksFullDuration Method.DelByFormat = true ∧
    locksFullDuration Method.ContainsName = true ∧
    locksFullDuration Method.ContainsFormat = true ∧
    locksFullDuration Method.Validates = true ∧
    locksFullDuration Method.Parse = true ∧
    methodLockEvents Method.MapStructureHookFuncAccessor = [] ∧
    methodLockEvents Method.Normalized = [] ∧
    methodLockEvents Method.Formats = [] ∧
    methodLockEvents Method.Types = [] ∧
    methodLockEvents Method.FormatToTypes = [] ∧
    methodLockEvents Method.TypeToFormats = [] ∧
    methodLockEvents Method.ZeroExpressions = [] ∧
    methodLockEvents Method.SchemaInfo = [] := by
  decide

/-! ## C4 -/

/-- C4: `Validates` on a name whose normalized key is not registered returns
`false` for every value (and, being a total function into `Bool`, never
raises); on a registered name it returns the registered validator predicate
applied to the value. -/
theorem C4_validates_unknown_false_known_delegates (f : defaultFormats)
    (name data : String) :
    (f.ContainsName name = false → f.Validates name data = false) ∧
    (∀ v, f.data.find? (fun w => w.Name == f.normalizeName name) = some v →
      f.Validates name data = v.Validator data) := by
  constructor
  · intro h
    unfold defaultFormats.Validates
    dsimp only
    rw [find?_eq_none_of_not_contains (f.normalizeName name) f.data h]
  · intro v hv
    unfold defaultFormats.Validates
    dsimp only
    rw [hv]

/-- Witness for `C4_validates_unknown_false_known_delegates`: an unregistered
name validates nothing, and the registered currency validator is the one
applied. -/
theorem C4_validates_witness :
    currencyFormats.Validates "unknown" "EUR" = false ∧
    currencyFormats.Validates "currency" "EUR" = IsCurrency "EUR" :=
  ⟨(C4_validates_unknown_false_known_delegates currencyFormats "unknown" "EUR").1
      (by decide),
   (C4_validates_unknown_false_known_delegates currencyFormats "currency" "EUR").2
      { Name := "currency", OrigName := "currency", Typ := GoType.currency
        Validator := IsCurrency } rfl⟩

/-! ## C5 -/

/-- C5: `Parse` fails with the unknown-format error (`InvalidTypeName name`)
whenever the normalized key is not registered; on a registered key whose
underlying type has the text-decode capability, it returns exactly the result
of that capability on the value — the decoded typed value, or the decode
error surfaced verbatim. -/
theorem C5_parse_dispatch (ext : Externals) (f : defaultFormats)
    (name data : String) :
    (f.ContainsName name = false →
      f.Parse ext name data = Except.error (GoErr.invalidTypeName name)) ∧
    (∀ v dec, f.data.find? (fun w => w.Name == f.normalizeName name) = some v →
      ext.unmarshalText v.Typ = some dec →
      f.Parse ext name data = dec data) := by
  constructor
  · intro h
    unfold defaultFormats.Parse
    dsimp only
    rw [find?_eq_none_of_not_contains (f.normalizeName name) f.data h]
  · intro v dec hv hdec
    unfold defaultFormats.Parse
    simp only [hv, hdec]

/-- Witness for `C5_parse_dispatch`: an unregistered name fails with the
unknown-format error, and the registered currency entry dispatches to its
unmarshaler. -/
theorem C5_parse_dispatch_witness :
    currencyFormats.Parse stubExternals "unknown" "x"
      = Except.error (GoErr.invalidTypeName "unknown") ∧
    currencyFormats.Parse stubExternals "currency" "EUR"
      = Except.ok (GoValue.fmt GoType.currency "EUR") :=
  ⟨(C5_parse_dispatch stubExternals currencyFormats "unknown" "x").1 (by decide),
   (C5_parse_dispatch stubExternals currencyFormats "currency" "EUR").2
      { Name := "currency", OrigName := "currency", Typ := GoType.currency
        Validator := IsCurrency }
      (fun s => Except.ok (GoValue.fmt GoType.currency s)) rfl rfl⟩

/-! ## C10 -/

/-- C10: on a store containing the currency registration, `Parse` of the
`"currency"` format succeeds on every string: `Currency.UnmarshalText`
unconditionally assigns the input bytes and never fails, so the
decode-failure error kind is unreachable for this format, even on strings its
validator `IsCurrency` rejects. -/
theorem C10_parse_currency_never_fails (ext : Externals) (f : defaultFormats)
    (v : knownFormat) (s : String)
    (hext : ext.unmarshalText GoType.currency = some Currency.UnmarshalText)
    (hfind : f.data.find? (fun w => w.Name == f.normalizeName "currency") = some v)
    (htype : v.Typ = GoType.currency) :
    f.Parse ext "currency" s = Except.ok (GoValue.fmt GoType.currency s) := by
  unfold defaultFormats.Parse
  simp only [hfind, htype, hext, Currency.UnmarshalText]

/-- Witness for `C10_parse_currency_never_fails`: `"???"` is rejected by the
currency validator, yet `Parse` succeeds on it. -/
theorem C10_parse_currency_never_fails_witness :
    IsCurrency "???" = false ∧
    currencyFormats.Parse stubExternals "currency" "???"
      = Except.ok (GoValue.fmt GoType.currency "???") :=
  ⟨by decide,
   C10_parse_currency_never_fails stubExternals currencyFormats
      { Name := "currency", OrigName := "currency", Typ := GoType.currency
        Validator := IsCurrency } "???" rfl rfl rfl⟩

/-! ## C2 -/

/-- Entries whose looked-up type does not match the target are skipped by the
hook's scan. -/
theorem hookLoop_skip (ext : Externals) (f : defaultFormats) (toTpe : GoType)
    (data : String) :
    ∀ pre l : List knownFormat, (∀ w ∈ pre, f.GetType w.Name ≠ some toTpe) →
      hookLoop ext f toTpe data (pre ++ l) = hookLoop ext f toTpe data l
  | [], _, _ => rfl
  | w :: pre, l, hpre => by
    have hw : f.GetType w.Name ≠ some toTpe := hpre w (List.mem_cons_self w pre)
    have hstep : hookLoop ext f toTpe data ((w :: pre) ++ l)
        = hookLoop ext f toTpe data (pre ++ l) := by
      show (if (f.GetType w.Name == some toTpe) = true
          then hookSwitch ext w.Name data
          else hookLoop ext f toTpe data (pre ++ l))
        = hookLoop ext f toTpe data (pre ++ l)
      rw [if_neg (by simpa using hw)]
    rw [hstep]
    exact hookLoop_skip ext f toTpe data pre l
      (fun x hx => hpre x (List.mem_cons_of_mem w hx))

/-- A normalized name outside the hook's hard-coded case list falls to the
`default` case: `errors.InvalidTypeName`. -/
theorem hookSwitch_not_builtin (ext : Externals) (name data : String)
    (h : name ∉ builtinHookNames) :
    hookSwitch ext name data = Except.error (GoErr.invalidTypeName name) := by
  unfold hookSwitch
  split <;> simp_all [builtinHookNames]

/-- C2 (counterexample): the claim says a format registered through `Add`
with no case in the hook's dispatch (the `"currency"` registration) resolves
to "no match" and returns the original string unchanged; in the code the
type matches the registered entry, the `switch` falls to `default`, and the
hook fails with `errors.InvalidTypeName("currency")` instead of passing the
string through. -/
theorem C2_counterexample :
    currencyFormats.MapStructureHookFunc stubExternals ReflKind.string
        GoType.currency (GoValue.str "EUR")
      = Except.error (GoErr.invalidTypeName "currency") ∧
    currencyFormats.MapStructureHookFunc stubExternals ReflKind.string
        GoType.currency (GoValue.str "EUR") ≠ Except.ok (GoValue.str "EUR") := by
  have h0 : currencyFormats.MapStructureHookFunc stubExternals ReflKind.string
      GoType.currency (GoValue.str "EUR")
      = Except.error (GoErr.invalidTypeName "currency") := rfl
  refine ⟨h0, ?_⟩
  rw [h0]
  simp

/-- C2 (amended): for every format registered through `Add` whose normalized
name has no corresponding case in the hook's per-format dispatch (e.g. the
`"currency"` format registered at init), when the hook is given a string
source value and a target type equal to that format's registered underlying
type, the entry matches, the dispatch falls to the `default` case, and the
hook fails with `errors.InvalidTypeName` on that name rather than returning
the original string unchanged. -/
theorem C2_hook_unlisted_format_errors (ext : Externals) (f : defaultFormats)
    (toTpe : GoType) (data : String) (pre : List knownFormat) (v : knownFormat)
    (rest : List knownFormat)
    (hdata : f.data = pre ++ v :: rest)
    (hpre : ∀ w ∈ pre, f.GetType w.Name ≠ some toTpe)
    (hv : f.GetType v.Name = some toTpe)
    (hname : v.Name ∉ builtinHookNames) :
    f.MapStructureHookFunc ext ReflKind.string toTpe (GoValue.str data)
      = Except.error (GoErr.invalidTypeName v.Name) := by
  unfold defaultFormats.MapStructureHookFunc
  rw [if_neg (by decide)]
  dsimp only
  rw [hdata, hookLoop_skip ext f toTpe data pre (v :: rest) hpre]
  unfold hookLoop
  rw [if_pos (by simp [hv])]
  exact hookSwitch_not_builtin ext v.Name data hname

/-- Witness for `C2_hook_unlisted_format_errors` at the store holding the
currency registration. -/
theorem C2_hook_unlisted_format_errors_witness :
    currencyFormats.MapStructureHookFunc stubExternals ReflKind.string
        GoType.currency (GoValue.str "USD")
      = Except.error (GoErr.invalidTypeName "currency") :=
  C2_hook_unlisted_format_errors stubExternals currencyFormats GoType.currency
    "USD" []
    { Name := "currency", OrigName := "currency", Typ := GoType.currency
      Validator := IsCurrency }
    [] rfl (fun w hw => absurd hw (List.not_mem_nil w)) rfl (by decide)

/-! ## C3 -/

/-- Reduction of `addEntry` at a matching head entry. -/
theorem addEntry_cons_pos (nme orig : String) (tpe : GoType) (val : String → Bool)
    (v : knownFormat) (rest : List knownFormat) (hb : (v.Name == nme) = true) :
    addEntry nme orig tpe val (v :: rest)
      = ({ v with Typ := tpe, Validator := val } :: rest, false) := by
  show (if (v.Name == nme) = true
      then ({ v with Typ := tpe, Validator := val } :: rest, false)
      else (v :: (addEntry nme orig tpe val rest).1, (addEntry nme orig tpe val rest).2))
    = ({ v with Typ := tpe, Validator := val } :: rest, false)
  rw [if_pos hb]

/-- Reduction of `addEntry` at a non-matching head entry. -/
theorem addEntry_cons_neg (nme orig : String) (tpe : GoType) (val : String → Bool)
    (v : knownFormat) (rest : List knownFormat) (hb : (v.Name == nme) = false) :
    addEntry nme orig tpe val (v :: rest)
      = (v :: (addEntry nme orig tpe val rest).1, (addEntry nme orig tpe val rest).2) := by
  show (if (v.Name == nme) = true
      then ({ v with Typ := tpe, Validator := val } :: rest, false)
      else (v :: (addEntry nme orig tpe val rest).1, (addEntry nme orig tpe val rest).2))
    = (v :: (addEntry nme orig tpe val rest).1, (addEntry nme orig tpe val rest).2)
  rw [if_neg (by simp [hb])]

/-- Model of `containsKey` on a cons cell. -/
theorem containsKey_cons (k : String) (v : knownFormat) (rest : List knownFormat) :
    containsKey k (v :: rest) = (v.Name == k || containsKey k rest) := by
  simp [containsKey, List.any_cons]

/-- Model of `ContainsName` is `containsKey` at the normalized key. -/
theorem containsName_eq (f : defaultFormats) (name : String) :
    f.ContainsName name = containsKey (f.normalizeName name) f.data := rfl

/-- Model of `Add` reports a new entry exactly when the key was absent. -/
theorem addEntry_snd (nme orig : String) (tpe : GoType) (val : String → Bool) :
    ∀ l, (addEntry nme orig tpe val l).2 = !containsKey nme l
  | [] => by simp [addEntry, containsKey]
  | v :: rest => by
    cases hb : v.Name == nme
    · rw [addEntry_cons_neg nme orig tpe val v rest hb, containsKey_cons, hb]
      simpa using addEntry_snd nme orig tpe val rest
    · rw [addEntry_cons_pos nme orig tpe val v rest hb, containsKey_cons, hb]
      rfl

/-- Model of `Add` keeps the entry count on replacement and grows it by one on
insertion. -/
theorem addEntry_length (nme orig : String) (tpe : GoType) (val : String → Bool) :
    ∀ l, (addEntry nme orig tpe val l).1.length
      = if containsKey nme l then l.length else l.length + 1
  | [] => by simp [addEntry, containsKey]
  | v :: rest => by
    cases hb : v.Name == nme
    · rw [addEntry_cons_neg nme orig tpe val v rest hb, containsKey_cons, hb]
      simp only [List.length_cons, addEntry_length nme orig tpe val rest,
        Bool.false_or]
      split <;> rfl
    · rw [addEntry_cons_pos nme orig tpe val v rest hb, containsKey_cons, hb]
      simp

/-- Keys present after `addEntry`: the old ones plus the added key. -/
theorem containsKey_addEntry (k nme orig : String) (tpe : GoType) (val : String → Bool) :
    ∀ l, containsKey k (addEntry nme orig tpe val l).1
      = (containsKey k l || nme == k)
  | [] => by simp [addEntry, containsKey]
  | v :: rest => by
    cases hb : v.Name == nme
    · rw [addEntry_cons_neg nme orig tpe val v rest hb]
      rw [show containsKey k (v :: (addEntry nme orig tpe val rest).1, false).1
          = (v.Name == k || containsKey k (addEntry nme orig tpe val rest).1) from
        containsKey_cons k v _]
      rw [containsKey_addEntry k nme orig tpe val rest, containsKey_cons,
        Bool.or_assoc]
    · have hv : v.Name = nme := eq_of_beq hb
      rw [addEntry_cons_pos nme orig tpe val v rest hb]
      rw [show containsKey k ({ v with Typ := tpe, Validator := val } :: rest)
          = (v.Name == k || containsKey k rest) from containsKey_cons k _ rest]
      rw [containsKey_cons, hv]
      cases h1 : nme == k <;> cases h2 : containsKey k rest <;> simp [h1, h2]

/-- Model of `Add` preserves the one-entry-per-key invariant. -/
theorem uniqueKeys_addEntry (nme orig : String) (tpe : GoType) (val : String → Bool) :
    ∀ l, uniqueKeys l = true → uniqueKeys (addEntry nme orig tpe val l).1 = true
  | [], _ => by simp [addEntry, uniqueKeys, containsKey]
  | v :: rest, h => by
    rw [show uniqueKeys (v :: rest) = (!containsKey v.Name rest && uniqueKeys rest)
      from rfl, Bool.and_eq_true, Bool.not_eq_true'] at h
    obtain ⟨h1, h2⟩ := h
    cases hb : v.Name == nme
    · rw [addEntry_cons_neg nme orig tpe val v rest hb]
      show (!containsKey v.Name (addEntry nme orig tpe val rest).1
        && uniqueKeys (addEntry nme orig tpe val rest).1) = true
      rw [containsKey_addEntry v.Name nme orig tpe val rest, h1,
        uniqueKeys_addEntry nme orig tpe val rest h2,
        beq_eq_false_iff_ne.mpr (Ne.symm (ne_of_beq_false hb))]
      rfl
    · rw [addEntry_cons_pos nme orig tpe val v rest hb]
      show (!containsKey ({ v with Typ := tpe, Validator := val } : knownFormat).Name rest
        && uniqueKeys rest) = true
      rw [show ({ v with Typ := tpe, Validator := val } : knownFormat).Name = v.Name
        from rfl, h1, h2]
      rfl

/-- Model of `countKey` on a cons cell. -/
theorem countKey_cons (k : String) (v : knownFormat) (rest : List knownFormat) :
    countKey k (v :: rest)
      = if v.Name == k then countKey k rest + 1 else countKey k rest := by
  unfold countKey
  rw [List.filter_cons]
  cases hb : v.Name == k <;> simp [hb]

/-- An absent key has no entries. -/
theorem countKey_eq_zero (k : String) :
    ∀ l, containsKey k l = false → countKey k l = 0
  | [], _ => rfl
  | v :: rest, h => by
    rw [containsKey_cons, Bool.or_eq_false_iff] at h
    rw [countKey_cons, if_neg (by simp [h.1]), countKey_eq_zero k rest h.2]

/-- Under the invariant, a present key has exactly one entry. -/
theorem countKey_eq_one (k : String) :
    ∀ l, uniqueKeys l = true → containsKey k l = true → countKey k l = 1
  | [], _, hc => by simp [containsKey] at hc
  | v :: rest, hu, hc => by
    rw [show uniqueKeys (v :: rest) = (!containsKey v.Name rest && uniqueKeys rest)
      from rfl, Bool.and_eq_true, Bool.not_eq_true'] at hu
    rw [containsKey_cons, Bool.or_eq_true] at hc
    rw [countKey_cons]
    cases hb : v.Name == k
    · rw [if_neg (by simp)]
      rcases hc with hc | hc
      · rw [hb] at hc
        exact absurd hc (by simp)
      · exact countKey_eq_one k rest hu.2 hc
    · rw [if_pos rfl]
      have hv : v.Name = k := eq_of_beq hb
      rw [countKey_eq_zero k rest (by rw [← hv]; exact hu.1)]

/-- After `addEntry`, the scan for the key finds an entry carrying the new
type and validator (the original name of a replaced slot is preserved). -/
theorem addEntry_find (nme orig : String) (tpe : GoType) (val : String → Bool) :
    ∀ l, ∃ og : String,
      (addEntry nme orig tpe val l).1.find? (fun v => v.Name == nme)
        = some { Name := nme, OrigName := og, Typ := tpe, Validator := val }
  | [] => ⟨orig, by
      show List.find? (fun v : knownFormat => v.Name == nme)
        [({ Name := nme, OrigName := orig, Typ := tpe, Validator := val } : knownFormat)]
        = some { Name := nme, OrigName := orig, Typ := tpe, Validator := val }
      rw [List.find?_cons_of_pos _ (by simp)]⟩
  | v :: rest => by
    cases hb : v.Name == nme
    · obtain ⟨og, ih⟩ := addEntry_find nme orig tpe val rest
      refine ⟨og, ?_⟩
      rw [addEntry_cons_neg nme orig tpe val v rest hb]
      show List.find? (fun w => w.Name == nme)
        (v :: (addEntry nme orig tpe val rest).1) = _
      rw [List.find?_cons_of_neg _ (by simp [hb]), ih]
    · refine ⟨v.OrigName, ?_⟩
      have hv : v.Name = nme := eq_of_beq hb
      rw [addEntry_cons_pos nme orig tpe val v rest hb]
      show List.find? (fun w => w.Name == nme)
        ({ v with Typ := tpe, Validator := val } :: rest) = _
      rw [List.find?_cons_of_pos _ (by simp [hv])]
      rw [show ({ v with Typ := tpe, Validator := val } : knownFormat)
        = { Name := v.Name, OrigName := v.OrigName, Typ := tpe, Validator := val }
        from rfl, hv]

/-- C3: `Add` is an upsert preserving name uniqueness.  On a store satisfying
the at-most-one-entry-per-key invariant: the invariant still holds after
`Add`; the boolean result is `true` exactly on a fresh name; a replacement
keeps the entry count, an insertion grows it by exactly one; afterwards the
key has exactly one live entry; and that entry carries the new validator and
underlying type, so subsequent `Validates`/`GetType` use only the new
predicate and type. -/
theorem C3_add_upsert (f : defaultFormats) (name : String) (tpe : GoType)
    (val : String → Bool) (hinv : uniqueKeys f.data = true) :
    uniqueKeys ((f.Add name tpe val).1.data) = true ∧
    (f.Add name tpe val).2 = !f.ContainsName name ∧
    (f.ContainsName name = true →
      ((f.Add name tpe val).1.data).length = f.data.length) ∧
    (f.ContainsName name = false →
      ((f.Add name tpe val).1.data).length = f.data.length + 1) ∧
    countKey (f.normalizeName name) ((f.Add name tpe val).1.data) = 1 ∧
    (∀ d, (f.Add name tpe val).1.Validates name d = val d) ∧
    (f.Add name tpe val).1.GetType name = some tpe := by
  have hdata : (f.Add name tpe val).1.data
      = (addEntry (f.normalizeName name) name tpe val f.data).1 := rfl
  have hsnd : (f.Add name tpe val).2
      = (addEntry (f.normalizeName name) name tpe val f.data).2 := rfl
  refine ⟨?_, ?_, ?_, ?_, ?_, ?_, ?_⟩
  · rw [hdata]
    exact uniqueKeys_addEntry _ name tpe val f.data hinv
  · rw [hsnd, addEntry_snd, containsName_eq]
  · intro hc
    rw [containsName_eq] at hc
    rw [hdata, addEntry_length, if_pos hc]
  · intro hc
    rw [containsName_eq] at hc
    rw [hdata, addEntry_length, if_neg (by simp [hc])]
  · rw [hdata]
    refine countKey_eq_one _ _ (uniqueKeys_addEntry _ name tpe val f.data hinv) ?_
    rw [containsKey_addEntry]
    simp
  · intro d
    obtain ⟨og, hfind⟩ := addEntry_find (f.normalizeName name) name tpe val f.data
    show (match (addEntry (f.normalizeName name) name tpe val f.data).1.find?
        (fun v => v.Name == f.normalizeName name) with
      | some v => v.Validator d
      | none => false) = val d
    rw [hfind]
  · obtain ⟨og, hfind⟩ := addEntry_find (f.normalizeName name) name tpe val f.data
    show ((addEntry (f.normalizeName name) name tpe val f.data).1.find?
        (fun v => v.Name == f.normalizeName name)).map knownFormat.Typ = some tpe
    rw [hfind]
    rfl

/-- Witness for `C3_add_upsert`: adding a fresh format to the currency store
grows it by one entry, and re-adding the currency format with a new validator
makes `Validates` use only the new predicate. -/
theorem C3_add_upsert_witness :
    ((currencyFormats.Add "tf2" (GoType.custom "tf2")
        (fun s => s.startsWith "af")).1.data).length
      = currencyFormats.data.length + 1 ∧
    (currencyFormats.Add "currency" GoType.currency (fun _ => true)).1.Validates
      "currency" "???" = true :=
  ⟨(C3_add_upsert currencyFormats "tf2" (GoType.custom "tf2")
      (fun s => s.startsWith "af") rfl).2.2.2.1 rfl,
   (C3_add_upsert currencyFormats "currency" GoType.currency
      (fun _ => true) rfl).2.2.2.2.2.1 "???"⟩

/-! ## C7 -/

/-- Writing one buffer does not change any other buffer. -/
theorem bufGet_bufSet_ne (c : List knownFormat) :
    ∀ (bs : List (List knownFormat)) (i j : Nat), i ≠ j →
      bufGet (bufSet bs i c) j = bufGet bs j
  | [], _, _, _ => rfl
  | _ :: _, 0, 0, h => absurd rfl h
  | _ :: _, 0, _ + 1, _ => rfl
  | _ :: _, _ + 1, 0, _ => rfl
  | _ :: bs, i + 1, j + 1, h =>
    bufGet_bufSet_ne c bs i j (fun hij => h (by rw [hij]))

/-- Allocating a new buffer does not change existing buffers. -/
theorem bufGet_append_lt (c : List knownFormat) :
    ∀ (bs : List (List knownFormat)) (j : Nat), j < bs.length →
      bufGet (bs ++ [c]) j = bufGet bs j
  | [], j, h => absurd h (Nat.not_lt_zero j)
  | _ :: _, 0, _ => rfl
  | _ :: bs, j + 1, h => bufGet_append_lt c bs j (Nat.lt_of_succ_lt_succ h)

/-- A freshly allocated buffer holds exactly the written contents. -/
theorem bufGet_append_len (c : List knownFormat) :
    ∀ bs : List (List knownFormat), bufGet (bs ++ [c]) bs.length = c
  | [] => rfl
  | _ :: bs => bufGet_append_len c bs

/-- C7: `NewSeededFormats` copies the seed entries into a fresh backing
buffer, so a store seeded from another store's entries shares no state with
it: the new store initially holds exactly the seeds, creating it leaves the
seeding store untouched, and every later mutation (`Add`, `DelByName`) of
either store leaves the other store's view — hence all its lookups and
metadata queries, which are functions of that view — unchanged. -/
theorem C7_seeded_store_independent (h : Heap) (r1 : StoreRef)
    (seeds : List knownFormat) (nrm : Option (String → String))
    (h2 : Heap) (r2 : StoreRef)
    (hvalid : r1.buf < h.bufs.length)
    (hnew : heapNewSeededFormats h seeds nrm = (h2, r2)) :
    (h2.storeView r2).data = seeds ∧
    h2.storeView r1 = h.storeView r1 ∧
    (∀ (name : String) (tpe : GoType) (val : String → Bool),
      (heapAdd h2 r2 name tpe val).1.storeView r1 = h2.storeView r1 ∧
      (heapAdd h2 r1 name tpe val).1.storeView r2 = h2.storeView r2) ∧
    (∀ name : String,
      (heapDelByName h2 r2 name).1.storeView r1 = h2.storeView r1 ∧
      (heapDelByName h2 r1 name).1.storeView r2 = h2.storeView r2) := by
  unfold heapNewSeededFormats at hnew
  injection hnew with hA hB
  subst hA
  subst hB
  have hne : r1.buf ≠ h.bufs.length := Nat.ne_of_lt hvalid
  refine ⟨?_, ?_, ?_, ?_⟩
  · show bufGet (h.bufs ++ [seeds]) h.bufs.length = seeds
    exact bufGet_append_len seeds h.bufs
  · show (defaultFormats.mk (bufGet (h.bufs ++ [seeds]) r1.buf) r1.normalizeName)
      = defaultFormats.mk (bufGet h.bufs r1.buf) r1.normalizeName
    rw [bufGet_append_lt seeds h.bufs r1.buf hvalid]
  · intro name tpe val
    constructor
    · show (defaultFormats.mk
          (bufGet (bufSet (h.bufs ++ [seeds]) h.bufs.length _) r1.buf) r1.normalizeName)
        = defaultFormats.mk (bufGet (h.bufs ++ [seeds]) r1.buf) r1.normalizeName
      rw [bufGet_bufSet_ne _ _ _ _ (Ne.symm hne)]
    · show (defaultFormats.mk
          (bufGet (bufSet (h.bufs ++ [seeds]) r1.buf _) h.bufs.length) _)
        = defaultFormats.mk (bufGet (h.bufs ++ [seeds]) h.bufs.length) _
      rw [bufGet_bufSet_ne _ _ _ _ hne]
  · intro name
    constructor
    · show (defaultFormats.mk
          (bufGet (bufSet (h.bufs ++ [seeds]) h.bufs.length _) r1.buf) r1.normalizeName)
        = defaultFormats.mk (bufGet (h.bufs ++ [seeds]) r1.buf) r1.normalizeName
      rw [bufGet_bufSet_ne _ _ _ _ (Ne.symm hne)]
    · show (defaultFormats.mk
          (bufGet (bufSet (h.bufs ++ [seeds]) r1.buf _) h.bufs.length) _)
        = defaultFormats.mk (bufGet (h.bufs ++ [seeds]) h.bufs.length) _
      rw [bufGet_bufSet_ne _ _ _ _ hne]

/-- Witness for `C7_seeded_store_independent`: a registry seeded from the
default store's entries is mutated without the original store changing. -/
theorem C7_seeded_store_independent_witness :
    (heapAdd
        (heapNewSeededFormats (Heap.mk [currencyFormats.data])
          currencyFormats.data none).1
        (heapNewSeededFormats (Heap.mk [currencyFormats.data])
          currencyFormats.data none).2
        "tf2" (GoType.custom "tf2") (fun s => s.startsWith "af")).1.storeView
      (StoreRef.mk 0 DefaultNameNormalizer)
    = (heapNewSeededFormats (Heap.mk [currencyFormats.data])
        currencyFormats.data none).1.storeView
      (StoreRef.mk 0 DefaultNameNormalizer) :=
  ((C7_seeded_store_independent (Heap.mk [currencyFormats.data])
      (StoreRef.mk 0 DefaultNameNormalizer) currencyFormats.data none _ _
      (by decide) rfl).2.2.1 "tf2" (GoType.custom "tf2")
      (fun s => s.startsWith "af")).1

end Strfmt
